import Mathlib

/-!
Verification of the fund time-series store and metrics engine of
`src/quantinv.py` (classes `EMFund` and `DBFund`).

Shallow embedding conventions:
* A pandas `DataFrame` of NAV rows is a `List NavRow`; the store state
  (`DBFund.pdata`) is such a list, row order preserved exactly as
  `pd.concat` / `DataFrame.sort_values` produce it.
* Python floats are embedded as exact rationals `ℚ`; the only real-number
  operations in the source are the square roots inside the Sharpe ratio,
  embedded via `Real.sqrt` (fields of type `ℝ`).
* Float division by zero in numpy produces a non-finite value (inf/nan);
  a field whose value would be non-finite is embedded as `Option` `none`.
* Code that raises is embedded with `Except`.
* Python compares strings lexicographically by code point; this order is
  embedded by the executable comparison `cmpChars` below.
-/

/-- One row of the NAV table, columns `SAVE_COL = [Code, Name, TradingDay,
UnitNAV, CumNAV, Return]` of `src/quantinv.py`.  `TradingDay` is an ISO
`YYYY-MM-DD` string; numeric columns are exact rationals. -/
structure NavRow where
  code : String
  name : String
  tradingDay : String
  unitNav : ℚ
  cumNav : ℚ
  ret : ℚ
deriving DecidableEq

instance : Inhabited NavRow := ⟨⟨"", "", "", 0, 0, 0⟩⟩

/-- The dedup key used by `DBFund.add` (line 254):
`tmp["Code"] + tmp["TradingDay"]`, i.e. plain string concatenation. -/
def rowKey (r : NavRow) : String := r.code ++ r.tradingDay

namespace DBFund

/-- `DBFund.add` (lines 239-265): if the store is empty the whole batch is
appended; otherwise only the batch rows whose key `Code + TradingDay` does
not occur among the store's keys are appended (`~isin` filter), and the
result is `pd.concat([self.pdata, new])`. -/
def add (pdata batch : List NavRow) : List NavRow :=
  if pdata.length = 0 then
    pdata ++ batch
  else
    pdata ++ batch.filter (fun r => !((pdata.map rowKey).contains (rowKey r)))

/-- `DBFund.empty` (lines 230-237): `len(self.pdata) == 0`. -/
def empty (pdata : List NavRow) : Bool := pdata.length == 0

/-- `DBFund.load`, local branch (lines 216-219): if the csv file exists its
rows are read, otherwise `self.pdata` stays the empty table.  The sink is
`some rows` when `data/local_db.csv` exists and `none` when it does not. -/
def load_local (sink : Option (List NavRow)) : List NavRow :=
  match sink with
  | some rows => rows
  | none => []

/-- `DBFund.load`, database branch (lines 220-227): `sqlite3.connect`
creates the database file if absent, then
`pd.read_sql_query("SELECT * FROM Return;", conn)` raises a database error
when the table `Return` does not exist.  The sink is `some rows` when the
table exists and `none` when the database file (hence the table) does not. -/
def load_db (sink : Option (List NavRow)) : Except String (List NavRow) :=
  match sink with
  | some rows => Except.ok rows
  | none => Except.error "no such table: Return"

end DBFund

/-- The per-page return derivation of `EMFund._scrape_data` (lines 158-163)
applied to one page's `LJJZ` (cumulative NAV) column, newest day first:
`tmp["JZZZL"] = (tmp["LJJZ"] - tmp["LJJZ"].shift(-1)) / tmp["LJJZ"].shift(-1)`
followed by `tmp["JZZZL"].values[-1] = 0`.  Row `i` is paired with row
`i+1` of the same page; the page's last row is assigned 0. -/
def deriveReturns : List ℚ → List ℚ
  | [] => []
  | [_] => [0]
  | a :: b :: rest => (a - b) / b :: deriveReturns (b :: rest)

/-- The whole fetch loop of `EMFund._scrape_data` (lines 144-166), projected
onto the cumulative NAV column: each page is processed independently by the
shift/assign step above and the results are concatenated
(`self.data += tmp.to_dict(...)`). -/
def scrapeData (pages : List (List ℚ)) : List ℚ :=
  (pages.map deriveReturns).flatten

/-- `src["TradingDay"].str.slice(0, 4)` (line 297 / 342). -/
def yearOf (r : NavRow) : String := ⟨r.tradingDay.data.take 4⟩

/-- `src["TradingDay"].str.slice(5, 7)` (line 298). -/
def monthOf (r : NavRow) : String := ⟨(r.tradingDay.data.drop 5).take 2⟩

/-- Decimal value of a digit string, for the date fields of `YYYY-MM-DD`. -/
def digitsToNat (l : List Char) : Nat :=
  l.foldl (fun a c => 10 * a + (c.toNat - 48)) 0

/-- The year / month / day fields of an ISO `YYYY-MM-DD` string. -/
def dateFields (s : String) : ℤ × ℤ × ℤ :=
  ((digitsToNat (s.data.take 4) : ℤ),
   (digitsToNat ((s.data.drop 5).take 2) : ℤ),
   (digitsToNat ((s.data.drop 8).take 2) : ℤ))

/-- Day count of a civil date (proleptic Gregorian, standard
days-from-civil algorithm); models the day arithmetic performed by
`(pd.to_datetime(a) - pd.to_datetime(b)).days` on lines 327-330. -/
def daysFromCivil (y m d : ℤ) : ℤ :=
  let y2 := if m ≤ 2 then y - 1 else y
  let era := (if 0 ≤ y2 then y2 else y2 - 399) / 400
  let yoe := y2 - era * 400
  let mp := if 2 < m then m - 3 else m + 9
  let doy := (153 * mp + 2) / 5 + d - 1
  let doe := yoe * 365 + yoe / 4 - yoe / 100 + doy
  era * 146097 + doe - 719468

/-- The day number of a `TradingDay` string. -/
def dateValue (s : String) : ℤ :=
  daysFromCivil (dateFields s).1 (dateFields s).2.1 (dateFields s).2.2

/-- Three-way lexicographic comparison of char lists by code point — the
string comparison Python/pandas apply when sorting the `TradingDay`
column. -/
def cmpChars : List Char → List Char → Ordering
  | [], [] => .eq
  | [], _ :: _ => .lt
  | _ :: _, [] => .gt
  | a :: as, b :: bs =>
    if a.toNat < b.toNat then .lt
    else if b.toNat < a.toNat then .gt
    else cmpChars as bs

/-- Lexicographic `≤` on strings (code-point order). -/
def strLE (s t : String) : Prop := cmpChars s.data t.data ≠ Ordering.gt

instance : DecidableRel strLE := fun s t =>
  inferInstanceAs (Decidable (cmpChars s.data t.data ≠ Ordering.gt))

/-- The descending `TradingDay` order used by
`cut.sort_values(["TradingDay"], ascending=False)`: `a` comes before `b`
when `b`'s day string is lexicographically `≤` `a`'s. -/
def dayGE (a b : NavRow) : Prop := strLE b.tradingDay a.tradingDay

instance : DecidableRel dayGE := fun a b =>
  inferInstanceAs (Decidable (strLE b.tradingDay a.tradingDay))

/-- `sort_values(["TradingDay"], ascending=False)` as a stable sort. -/
def sortDesc (l : List NavRow) : List NavRow := l.insertionSort dayGE

/-- First-appearance deduplication, as `pandas.Series.unique` (lines 318 and
343 iterate over `unique()` of the `Code` / `year` columns, which preserves
order of first appearance). -/
def uniques {α : Type} [DecidableEq α] : List α → List α
  | [] => []
  | x :: xs => x :: uniques (xs.filter (fun y => y != x))
termination_by l => l.length
decreasing_by
  simp only [List.length_cons]
  exact Nat.lt_succ_of_le (List.length_filter_le _ _)

/-- Arithmetic mean of a list, as `numpy` computes it (0 on empty input in
this embedding; the source never takes a mean of an empty column). -/
def listMean (l : List ℚ) : ℚ := l.sum / l.length

/-- Population variance: `np.std(x) ** 2`, i.e. the mean of the squared
deviations from the mean (`numpy` default `ddof = 0`). -/
def popVar (l : List ℚ) : ℚ :=
  ((l.map (fun x => (x - listMean l) ^ 2)).sum) / l.length

/-- Minimum of a column, as `pandas.Series.min` on a non-empty column
(0 on the empty list in this embedding; never taken on an empty column). -/
def minQ : List ℚ → ℚ
  | [] => 0
  | [x] => x
  | x :: y :: xs => min x (minQ (y :: xs))

/-- `YEAR_TNR = 365` (line 23), calendar days per year. -/
def YEAR_TNR : ℚ := 365

/-- `BDAY_TNR = 252` (line 25), trading days per year. -/
def BDAY_TNR : ℕ := 252

/-- `RATE_R_F = 0.025` (line 27), the risk-free rate. -/
def RATE_R_F : ℚ := 25 / 1000

/-- The per-fund slice of the annual report (lines 320-322):
`src.loc[src["Code"] == cc]` sorted by `TradingDay` descending. -/
def fundCut (pdata : List NavRow) (c : String) : List NavRow :=
  sortDesc (pdata.filter (fun r => r.code == c))

/-- `cnt` of lines 326-330: calendar days between the first row (newest
trading day) and the last row (oldest trading day) of the descending-sorted
per-fund slice. -/
def ageDays (pdata : List NavRow) (c : String) : ℤ :=
  let cut := fundCut pdata c
  dateValue ((cut.headD default).tradingDay) -
    dateValue ((cut.getLastD default).tradingDay)

/-- The per-year columns `{yy}_Return`, `{yy}_Shapre`, `{yy}_MaxDrawDown`
of one annual-report row. -/
structure YearStats where
  ret : ℚ
  sharpe : Option ℝ
  maxDrawDown : ℚ

/-- Lines 343-354: the per-year metrics of the annual report, computed on
`yut = cut.loc[cut["year"] == yy]` where `cut` is the sorted per-fund
slice.  The year return compounds `yut["Return"].values[:-1]` (all rows
except the chronologically earliest); the Sharpe denominator uses the
population standard deviation of the whole year bucket; a zero standard
deviation makes the float quotient non-finite, embedded as `none`. -/
noncomputable def yearStats (cut : List NavRow) (yy : String) : YearStats :=
  let yut := cut.filter (fun r => yearOf r == yy)
  let yret := (((yut.map (fun r => r.ret)).dropLast).map (fun x => x + 1)).prod - 1
  { ret := yret
    sharpe :=
      if popVar (yut.map (fun r => r.ret)) = 0 then none
      else some (((yret : ℝ) - (RATE_R_F : ℝ)) /
        (Real.sqrt (popVar (yut.map (fun r => r.ret))) * Real.sqrt (BDAY_TNR : ℝ)))
    maxDrawDown := minQ (yut.map (fun r => r.cumNav)) - 1 }

/-- One row of the annual report (one fund), fields as the dict built on
lines 323-355: `Code`, `Name`, `TotalReturn`, `YearReturn`, `TotalShapre`,
`TotalMaxDrawDown`, plus one `YearStats` per calendar year of the fund. -/
structure AnnualRow where
  code : String
  name : String
  totalReturn : ℚ
  yearReturn : Option ℚ
  totalSharpe : Option ℝ
  totalMaxDrawDown : ℚ
  years : List (String × YearStats)

/-- Lines 318-355: the annual-report row of fund `c`.
`TotalReturn = (cut["Return"] + 1).prod() - 1` over the whole series;
`YearReturn = TotalReturn / cnt * YEAR_TNR` (non-finite, i.e. `none`, when
`cnt = 0` since the numpy float division by zero is unguarded);
`TotalShapre = (YearReturn - RATE_R_F) / (np.std(cut["Return"]) * np.sqrt(BDAY_TNR))`
(non-finite when `YearReturn` is, or when the standard deviation is 0);
`TotalMaxDrawDown = cut["CumNAV"].min() - 1`. -/
noncomputable def annualRow (pdata : List NavRow) (c : String) : AnnualRow :=
  let cut := fundCut pdata c
  let rets := cut.map (fun r => r.ret)
  let cnt := ageDays pdata c
  let totalReturn := ((rets.map (fun x => x + 1)).prod) - 1
  let yearReturn : Option ℚ :=
    if cnt = 0 then none else some (totalReturn / (cnt : ℚ) * YEAR_TNR)
  { code := c
    name := (cut.headD default).name
    totalReturn := totalReturn
    yearReturn := yearReturn
    totalSharpe :=
      match yearReturn with
      | none => none
      | some yr =>
        if popVar rets = 0 then none
        else some (((yr : ℝ) - (RATE_R_F : ℝ)) /
          (Real.sqrt (popVar rets) * Real.sqrt (BDAY_TNR : ℝ)))
    totalMaxDrawDown := minQ (cut.map (fun r => r.cumNav)) - 1
    years := (uniques (cut.map yearOf)).map (fun yy => (yy, yearStats cut yy)) }

/-- `make_repo(month=False)` (lines 313-357): one `AnnualRow` per code, in
order of first appearance (`src["Code"].unique()`). -/
noncomputable def make_repo_annual (pdata : List NavRow) : List AnnualRow :=
  (uniques (pdata.map (fun r => r.code))).map (annualRow pdata)

/-- One row of the monthly report, the dict of lines 304-311. -/
structure MonthRow where
  code : String
  name : String
  year : String
  month : String
  ret : ℚ
deriving DecidableEq

/-- The rows of one `(Code, year, month)` group of line 300, sorted by
`TradingDay` descending (line 302).  A `groupby` group holds exactly the
rows whose columns match the key, in frame order, here re-sorted. -/
def monthCut (pdata : List NavRow) (c y m : String) : List NavRow :=
  sortDesc (pdata.filter (fun r => r.code == c && yearOf r == y && monthOf r == m))

/-- Lines 300-312: the monthly-report row of one group key:
`Return = (cut["Return"].values[:-1] + 1).prod() - 1`, compounding every
row except the chronologically earliest of the month bucket. -/
def monthlyRow (pdata : List NavRow) (k : String × String × String) : MonthRow :=
  let cut := monthCut pdata k.1 k.2.1 k.2.2
  { code := k.1
    name := (cut.headD default).name
    year := k.2.1
    month := k.2.2
    ret := (((cut.map (fun r => r.ret)).dropLast).map (fun x => x + 1)).prod - 1 }

/-- `make_repo(month=True)` (lines 292-312): one `MonthRow` per distinct
`(Code, year, month)` triple occurring in the store.  (pandas `groupby`
emits the groups in sorted key order; the set of rows produced is the same
and only that set matters below, so first-appearance order is used.) -/
def make_repo_month (pdata : List NavRow) : List MonthRow :=
  (uniques (pdata.map (fun r => (r.code, yearOf r, monthOf r)))).map (monthlyRow pdata)

/-- The rows of fund `c` in store order (the fund's full series, before
any sorting). -/
def fundRows (pdata : List NavRow) (c : String) : List NavRow :=
  pdata.filter (fun r => r.code == c)

/-- The rows of the `(fund, year)` bucket of the annual report, in store
order. -/
def yearBucket (pdata : List NavRow) (c y : String) : List NavRow :=
  pdata.filter (fun r => r.code == c && yearOf r == y)

/-- The rows of the `(fund, year, month)` bucket of the monthly report, in
store order. -/
def monthBucket (pdata : List NavRow) (c y m : String) : List NavRow :=
  pdata.filter (fun r => r.code == c && yearOf r == y && monthOf r == m)

/-- A concrete two-day store used to instantiate the report theorems:
fund `A` with cumulative NAVs `1` then `51/50` and daily returns `0` then
`1/50`. -/
def sampleStore : List NavRow :=
  [⟨"A", "alpha", "2024-01-02", 11/10, 51/50, 1/50⟩,
   ⟨"A", "alpha", "2024-01-01", 1, 1, 0⟩]

/-- A concrete four-day store matching the spec's max-drawdown example:
cumulative NAVs `[1.0, 0.95, 1.02, 0.90]`. -/
def drawdownStore : List NavRow :=
  [⟨"A", "alpha", "2024-01-01", 1, 1, 0⟩,
   ⟨"A", "alpha", "2024-01-02", 1, 95/100, -5/100⟩,
   ⟨"A", "alpha", "2024-01-03", 1, 102/100, 7/95⟩,
   ⟨"A", "alpha", "2024-01-04", 1, 90/100, -2/17⟩]

/-- A concrete one-row store (a fund whose first and last trading day
coincide). -/
def singleDayStore : List NavRow := [⟨"A", "alpha", "2024-01-01", 1, 1, 0⟩]

/-! ### Order facts about the lexicographic comparison -/

lemma charEq_of_toNat_eq {a b : Char} (h : a.toNat = b.toNat) : a = b := by
  apply Char.ext
  exact UInt32.ext h

lemma cmpChars_eq_iff : ∀ {a b : List Char}, cmpChars a b = Ordering.eq ↔ a = b := by
  intro a
  induction a with
  | nil =>
    intro b
    cases b <;> simp [cmpChars]
  | cons x xs ih =>
    intro b
    cases b with
    | nil => simp [cmpChars]
    | cons y ys =>
      unfold cmpChars
      split_ifs with h1 h2
      · simp
        intro h
        subst h
        omega
      · simp
        intro h
        subst h
        omega
      · have hxy : x = y := charEq_of_toNat_eq (by omega)
        subst hxy
        simp [ih]

lemma cmpChars_refl (a : List Char) : cmpChars a a = Ordering.eq :=
  cmpChars_eq_iff.mpr rfl

lemma cmpChars_swap : ∀ (a b : List Char), cmpChars b a = (cmpChars a b).swap := by
  intro a
  induction a with
  | nil =>
    intro b
    cases b <;> simp [cmpChars, Ordering.swap]
  | cons x xs ih =>
    intro b
    cases b with
    | nil => simp [cmpChars, Ordering.swap]
    | cons y ys =>
      unfold cmpChars
      split_ifs with h1 h2 h3 <;>
        first
          | rfl
          | omega
          | (have hxy : x = y := charEq_of_toNat_eq (by omega)
             subst hxy
             exact ih ys)

lemma cmpChars_lt_trans :
    ∀ (a b c : List Char), cmpChars a b = Ordering.lt → cmpChars b c = Ordering.lt →
      cmpChars a c = Ordering.lt := by
  intro a
  induction a with
  | nil =>
    intro b c h1 h2
    cases b with
    | nil => simp [cmpChars] at h1
    | cons y ys =>
      cases c with
      | nil => simp [cmpChars] at h2
      | cons z zs => simp [cmpChars]
  | cons x xs ih =>
    intro b c h1 h2
    cases b with
    | nil => simp [cmpChars] at h1
    | cons y ys =>
      cases c with
      | nil => simp [cmpChars] at h2
      | cons z zs =>
        unfold cmpChars at h1 h2 ⊢
        split_ifs at h1 h2 ⊢ with h h3 h4 h5 h6 h7 <;>
          first
            | rfl
            | omega
            | exact absurd h1 (by simp)
            | exact absurd h2 (by simp)
            | (exact ih ys zs h1 h2)

lemma strLE_refl (s : String) : strLE s s := by
  unfold strLE
  rw [cmpChars_refl]
  simp

lemma strLE_total (s t : String) : strLE s t ∨ strLE t s := by
  unfold strLE
  by_cases h : cmpChars s.data t.data = Ordering.gt
  · right
    rw [cmpChars_swap]
    rw [h]
    simp [Ordering.swap]
  · left; exact h

lemma strLE_trans {s t u : String} (h1 : strLE s t) (h2 : strLE t u) : strLE s u := by
  unfold strLE at h1 h2 ⊢
  intro hgt
  have hus : cmpChars u.data s.data = Ordering.lt := by
    have := cmpChars_swap s.data u.data
    rw [hgt] at this
    simpa [Ordering.swap] using this
  rcases hst : cmpChars s.data t.data with _ | _ | _
  · -- s < t : then u < s < t gives u < t, i.e. t > u, contradiction
    have hut : cmpChars u.data t.data = Ordering.lt := cmpChars_lt_trans _ _ _ hus hst
    have := cmpChars_swap u.data t.data
    rw [hut] at this
    exact h2 (by simpa [Ordering.swap] using this)
  · -- s = t
    have : s.data = t.data := cmpChars_eq_iff.mp hst
    rw [this] at hgt
    exact h2 hgt
  · exact h1 hst

lemma dayGE_total : ∀ a b : NavRow, dayGE a b ∨ dayGE b a := by
  intro a b
  rcases strLE_total a.tradingDay b.tradingDay with h | h
  · right; exact h
  · left; exact h

lemma dayGE_trans : ∀ a b c : NavRow, dayGE a b → dayGE b c → dayGE a c := by
  intro a b c h1 h2
  exact strLE_trans h2 h1

lemma sortDesc_perm (l : List NavRow) : (sortDesc l).Perm l :=
  List.perm_insertionSort dayGE l

lemma sortDesc_sorted (l : List NavRow) : List.Sorted dayGE (sortDesc l) :=
  @List.sorted_insertionSort NavRow dayGE _ ⟨dayGE_total⟩ ⟨dayGE_trans⟩ l

/-! ### Structure of `DBFund.add` -/

/-- The empty-store branch of `add` coincides with filtering against an
empty key set, so `add` is unconditionally "append the unseen rows". -/
lemma add_eq (pdata batch : List NavRow) :
    DBFund.add pdata batch
      = pdata ++ batch.filter (fun r => !((pdata.map rowKey).contains (rowKey r))) := by
  unfold DBFund.add
  split
  · rename_i h
    have hnil : pdata = [] := List.length_eq_zero.mp h
    subst hnil
    simp
  · rfl

lemma mem_add_filter {pdata batch : List NavRow} {r : NavRow} :
    r ∈ batch.filter (fun x => !((pdata.map rowKey).contains (rowKey x)))
      ↔ r ∈ batch ∧ rowKey r ∉ pdata.map rowKey := by
  simp [List.mem_filter]

lemma add_nodup_keys (pdata batch : List NavRow)
    (hp : (pdata.map rowKey).Nodup) (hb : (batch.map rowKey).Nodup) :
    ((DBFund.add pdata batch).map rowKey).Nodup := by
  rw [add_eq, List.map_append]
  refine List.Nodup.append hp ?_ ?_
  · exact hb.sublist (List.Sublist.map rowKey (List.filter_sublist batch))
  · intro k hk1 hk2
    rcases List.mem_map.mp hk2 with ⟨r, hr, rfl⟩
    exact (mem_add_filter.mp hr).2 hk1

lemma mem_keys_of_mem_add {pdata batch : List NavRow} {r : NavRow} (h : r ∈ batch) :
    rowKey r ∈ (DBFund.add pdata batch).map rowKey := by
  rw [add_eq, List.map_append, List.mem_append]
  by_cases hk : rowKey r ∈ pdata.map rowKey
  · left; exact hk
  · right
    exact List.mem_map_of_mem rowKey (mem_add_filter.mpr ⟨h, hk⟩)


/-! ### Sorted-slice helpers -/

lemma headD_eq_head {α : Type} [Inhabited α] (l : List α) (h : l ≠ []) :
    l.headD default = l.head h := by
  cases l with
  | nil => exact absurd rfl h
  | cons a t => rfl

lemma getLastD_eq_getLast {α : Type} [Inhabited α] (l : List α) (h : l ≠ []) :
    l.getLastD default = l.getLast h := by
  rw [List.getLastD_eq_getLast?, List.getLast?_eq_getLast l h]
  rfl

/-- In a descending-sorted list the head's trading day bounds every row's
trading day from above. -/
lemma sorted_le_head (l : List NavRow) (hs : List.Sorted dayGE l) (h : l ≠ []) :
    ∀ x ∈ l, strLE x.tradingDay ((l.headD default).tradingDay) := by
  cases l with
  | nil => exact absurd rfl h
  | cons a t =>
    intro x hx
    rcases List.mem_cons.mp hx with rfl | hx2
    · exact strLE_refl _
    · exact (List.sorted_cons.mp hs).1 x hx2

/-- In a descending-sorted list the last row's trading day bounds every
row's trading day from below. -/
lemma sorted_getLast_le (l : List NavRow) (hs : List.Sorted dayGE l) (h : l ≠ []) :
    ∀ x ∈ l, strLE ((l.getLast h).tradingDay) x.tradingDay := by
  induction l with
  | nil => exact absurd rfl h
  | cons a t ih =>
    intro x hx
    cases t with
    | nil =>
      rcases List.mem_cons.mp hx with rfl | hx2
      · exact strLE_refl _
      · exact absurd hx2 (List.not_mem_nil x)
    | cons b u =>
      rw [List.getLast_cons (List.cons_ne_nil b u)]
      rcases List.mem_cons.mp hx with rfl | hx2
      · exact (List.sorted_cons.mp hs).1 _
          (List.getLast_mem (List.cons_ne_nil b u))
      · exact ih (List.sorted_cons.mp hs).2 (List.cons_ne_nil b u) x hx2

/-- Rows with pairwise-distinct trading days: dropping the last row of a
sorted permutation is, up to permutation, erasing the chronologically
earliest row of the bucket. -/
lemma dropLast_perm_erase (s B : List NavRow) (hperm : s.Perm B)
    (hnd : (B.map (fun r => r.tradingDay)).Nodup) (h : s ≠ []) :
    s.dropLast.Perm (B.erase (s.getLast h)) := by
  have hsd : (s.map (fun r => r.tradingDay)).Nodup :=
    ((hperm.map (fun r => r.tradingDay)).nodup_iff).mpr hnd
  have hsnodup : s.Nodup := hsd.of_map
  obtain ⟨e, he⟩ : ∃ e, s.getLast h = e := ⟨_, rfl⟩
  rw [he]
  have hdecomp : s.dropLast ++ [e] = s := by
    rw [← he]
    exact List.dropLast_append_getLast h
  have hnotmem : e ∉ s.dropLast := by
    intro hmem
    rcases List.nodup_append.mp (hdecomp.symm ▸ hsnodup) with ⟨_, _, hdisj⟩
    exact hdisj hmem (List.mem_singleton_self _)
  have herase : s.erase e = s.dropLast := by
    conv_lhs => rw [← hdecomp]
    rw [List.erase_append_right _ hnotmem, List.erase_cons_head, List.append_nil]
  have hp2 := hperm.erase e
  rw [herase] at hp2
  exact hp2

/-! ### `uniques`, `minQ`, mean and variance -/

lemma mem_uniques_aux {α : Type} [DecidableEq α] :
    ∀ (n : ℕ) (l : List α), l.length ≤ n → ∀ (a : α), (a ∈ uniques l ↔ a ∈ l) := by
  intro n
  induction n with
  | zero =>
    intro l hl a
    have : l = [] := List.eq_nil_of_length_eq_zero (Nat.le_zero.mp hl)
    subst this
    simp [uniques]
  | succ n ih =>
    intro l hl a
    cases l with
    | nil => simp [uniques]
    | cons x xs =>
      rw [uniques]
      simp only [List.mem_cons]
      rw [ih (xs.filter (fun y => y != x))
        (le_trans (List.length_filter_le _ _) (Nat.succ_le_succ_iff.mp hl))]
      simp only [List.mem_filter, bne_iff_ne]
      by_cases hax : a = x
      · subst hax; tauto
      · tauto

lemma mem_uniques {α : Type} [DecidableEq α] (l : List α) (a : α) :
    a ∈ uniques l ↔ a ∈ l :=
  mem_uniques_aux l.length l le_rfl a

lemma minQ_mem : ∀ (l : List ℚ), l ≠ [] → minQ l ∈ l := by
  intro l
  induction l with
  | nil => intro h; exact absurd rfl h
  | cons x t ih =>
    intro _
    cases t with
    | nil => simp [minQ]
    | cons y u =>
      rw [minQ]
      rcases min_cases x (minQ (y :: u)) with ⟨heq, _⟩ | ⟨heq, _⟩
      · rw [heq]; exact List.mem_cons_self x _
      · rw [heq]
        exact List.mem_cons_of_mem x (ih (List.cons_ne_nil y u))

lemma minQ_le : ∀ (l : List ℚ), ∀ x ∈ l, minQ l ≤ x := by
  intro l
  induction l with
  | nil => intro x hx; exact absurd hx (List.not_mem_nil x)
  | cons a t ih =>
    intro x hx
    cases t with
    | nil =>
      rcases List.mem_cons.mp hx with rfl | hx2
      · simp [minQ]
      · exact absurd hx2 (List.not_mem_nil x)
    | cons y u =>
      rw [minQ]
      rcases List.mem_cons.mp hx with rfl | hx2
      · exact min_le_left _ _
      · exact le_trans (min_le_right _ _) (ih x hx2)

lemma minQ_perm {l l2 : List ℚ} (h : l.Perm l2) : minQ l = minQ l2 := by
  cases l with
  | nil =>
    have : l2 = [] := h.nil_eq.symm
    subst this
    rfl
  | cons a t =>
    have h1 : (a :: t) ≠ [] := List.cons_ne_nil a t
    have h2 : l2 ≠ [] := by
      intro hnil
      subst hnil
      exact h1 h.eq_nil
    apply le_antisymm
    · exact minQ_le _ _ (h.mem_iff.mpr (minQ_mem l2 h2))
    · exact minQ_le _ _ (h.mem_iff.mp (minQ_mem _ h1))

lemma listMean_perm {l l2 : List ℚ} (h : l.Perm l2) : listMean l = listMean l2 := by
  unfold listMean
  rw [h.sum_eq, h.length_eq]

lemma popVar_perm {l l2 : List ℚ} (h : l.Perm l2) : popVar l = popVar l2 := by
  unfold popVar
  rw [listMean_perm h, (h.map (fun x => (x - listMean l2) ^ 2)).sum_eq, h.length_eq]

/-- Core compounding fact: the product of `1 + Return` over all but the
last row of a descending-sorted permutation of a bucket equals the product
of `1 + Return` over the bucket minus its chronologically earliest row. -/
lemma compound_excl_earliest (s B : List NavRow) (hperm : s.Perm B)
    (hs : List.Sorted dayGE s) (hnd : (B.map (fun r => r.tradingDay)).Nodup)
    (hne : B ≠ []) :
    ∃ e ∈ B, (∀ x ∈ B, strLE e.tradingDay x.tradingDay) ∧
      (((s.map (fun r => r.ret)).dropLast).map (fun x => x + 1)).prod
        = ((B.erase e).map (fun r => r.ret + 1)).prod := by
  have hsne : s ≠ [] := by
    intro hnil
    subst hnil
    exact hne hperm.nil_eq.symm
  refine ⟨s.getLast hsne, hperm.mem_iff.mp (List.getLast_mem hsne), ?_, ?_⟩
  · intro x hx
    exact sorted_getLast_le s hs hsne x (hperm.mem_iff.mpr hx)
  · have hperm2 := dropLast_perm_erase s B hperm hnd hsne
    have hmap : ((s.map (fun r => r.ret)).dropLast).map (fun x => x + 1)
        = s.dropLast.map (fun r => r.ret + 1) := by
      rw [← List.map_dropLast, List.map_map]
      rfl
    rw [hmap]
    exact (hperm2.map (fun r => r.ret + 1)).prod_eq

lemma fundCut_perm (pdata : List NavRow) (c : String) :
    (fundCut pdata c).Perm (fundRows pdata c) :=
  sortDesc_perm _

lemma monthCut_perm (pdata : List NavRow) (c y m : String) :
    (monthCut pdata c y m).Perm (monthBucket pdata c y m) :=
  sortDesc_perm _

lemma yut_perm (pdata : List NavRow) (c y : String) :
    ((fundCut pdata c).filter (fun r => yearOf r == y)).Perm (yearBucket pdata c y) := by
  have h1 : ((fundCut pdata c).filter (fun r => yearOf r == y)).Perm
      ((pdata.filter (fun r => r.code == c)).filter (fun r => yearOf r == y)) :=
    (sortDesc_perm _).filter _
  have h2 : (pdata.filter (fun r => r.code == c)).filter (fun r => yearOf r == y)
      = yearBucket pdata c y := by
    rw [List.filter_filter]
    apply List.filter_congr
    intro x _
    exact Bool.and_comm _ _
  rw [h2] at h1
  exact h1

lemma yut_sorted (pdata : List NavRow) (c y : String) :
    List.Sorted dayGE ((fundCut pdata c).filter (fun r => yearOf r == y)) :=
  List.Pairwise.filter _ (sortDesc_sorted _)

lemma ret_zero_of_singleton (s : List NavRow) (hlen : s.length = 1) :
    (((s.map (fun r => r.ret)).dropLast).map (fun x => x + 1)).prod - 1 = 0 := by
  cases s with
  | nil => simp at hlen
  | cons a t =>
    cases t with
    | nil => simp
    | cons b u => simp at hlen

/-! ### The claims -/

/-- C2: merge is idempotent — adding the same batch twice leaves exactly
the contents one add produces, for every prior store state and every
batch. -/
theorem merge_idempotent (pdata batch : List NavRow) :
    DBFund.add (DBFund.add pdata batch) batch = DBFund.add pdata batch := by
  conv_lhs => rw [add_eq]
  have hnil : batch.filter
      (fun r => !(((DBFund.add pdata batch).map rowKey).contains (rowKey r))) = [] := by
    rw [List.filter_eq_nil_iff]
    intro r hr
    have hmem : rowKey r ∈ (DBFund.add pdata batch).map rowKey :=
      mem_keys_of_mem_add hr
    simp [hmem]
  rw [hnil, List.append_nil]

/-- C1 counterexample: a single batch holding the same `(Code, TradingDay)`
row twice defeats the merge's deduplication — after merging it and then an
overlapping second batch, the key occurs twice in the store, so the claim
as stated (over arbitrary batches) is false. -/
theorem merge_dedup_counterexample :
    ((DBFund.add (DBFund.add []
          [⟨"000001", "fund", "2024-01-02", 1, 1, 0⟩,
           ⟨"000001", "fund", "2024-01-02", 1, 1, 0⟩])
        [⟨"000001", "fund", "2024-01-02", 1, 1, 0⟩]).map rowKey)
      = ["0000012024-01-02", "0000012024-01-02"] ∧
    ¬ (["0000012024-01-02", "0000012024-01-02"] : List String).Nodup := by
  constructor
  · decide
  · decide

/-- C1 (amended): when the prior store and each batch are key-unique
(`Code ++ TradingDay` keys), merging two overlapping batches leaves every
key exactly once, keeps every existing row, inserts exactly the batch rows
whose key was not seen before (first introducer wins), and adds nothing
else. -/
theorem merge_dedup_amended (pdata b1 b2 : List NavRow)
    (hp : (pdata.map rowKey).Nodup) (h1 : (b1.map rowKey).Nodup)
    (h2 : (b2.map rowKey).Nodup) :
    ((DBFund.add (DBFund.add pdata b1) b2).map rowKey).Nodup ∧
    (∀ r ∈ pdata, r ∈ DBFund.add (DBFund.add pdata b1) b2) ∧
    (∀ r ∈ b1, rowKey r ∉ pdata.map rowKey →
      r ∈ DBFund.add (DBFund.add pdata b1) b2) ∧
    (∀ r ∈ b2, rowKey r ∉ pdata.map rowKey → rowKey r ∉ b1.map rowKey →
      r ∈ DBFund.add (DBFund.add pdata b1) b2) ∧
    (∀ r ∈ DBFund.add (DBFund.add pdata b1) b2, r ∈ pdata ∨ r ∈ b1 ∨ r ∈ b2) := by
  refine ⟨add_nodup_keys _ _ (add_nodup_keys pdata b1 hp h1) h2, ?_, ?_, ?_, ?_⟩
  · intro r hr
    rw [add_eq]
    exact List.mem_append_left _ (by rw [add_eq]; exact List.mem_append_left _ hr)
  · intro r hr hk
    rw [add_eq]
    apply List.mem_append_left
    rw [add_eq]
    exact List.mem_append_right _ (mem_add_filter.mpr ⟨hr, hk⟩)
  · intro r hr hk1 hk2
    rw [add_eq (DBFund.add pdata b1) b2]
    apply List.mem_append_right
    apply mem_add_filter.mpr
    refine ⟨hr, ?_⟩
    rw [add_eq, List.map_append, List.mem_append]
    rintro (hmem | hmem)
    · exact hk1 hmem
    · rcases List.mem_map.mp hmem with ⟨x, hx, hxk⟩
      exact hk2 (hxk ▸ List.mem_map_of_mem rowKey (mem_add_filter.mp hx).1)
  · intro r hr
    rw [add_eq] at hr
    rcases List.mem_append.mp hr with hr1 | hr2
    · rw [add_eq] at hr1
      rcases List.mem_append.mp hr1 with hp1 | hb1
      · exact Or.inl hp1
      · exact Or.inr (Or.inl (mem_add_filter.mp hb1).1)
    · exact Or.inr (Or.inr (mem_add_filter.mp hr2).1)

/-- C1 witness: the amended dedup theorem applied to a concrete store and
two concrete overlapping key-unique batches. -/
theorem merge_dedup_amended_witness :
    ((([⟨"A", "a", "2024-01-01", 1, 1, 0⟩] : List NavRow).map rowKey).Nodup ∧
     (([⟨"A", "a", "2024-01-02", 1, 1, 0⟩] : List NavRow).map rowKey).Nodup ∧
     (([⟨"A", "a", "2024-01-02", 2, 2, 0⟩,
        ⟨"A", "a", "2024-01-03", 1, 1, 0⟩] : List NavRow).map rowKey).Nodup) ∧
    (((DBFund.add (DBFund.add [⟨"A", "a", "2024-01-01", 1, 1, 0⟩]
          [⟨"A", "a", "2024-01-02", 1, 1, 0⟩])
        [⟨"A", "a", "2024-01-02", 2, 2, 0⟩,
         ⟨"A", "a", "2024-01-03", 1, 1, 0⟩]).map rowKey).Nodup ∧
      (∀ r ∈ [⟨"A", "a", "2024-01-01", 1, 1, 0⟩],
        r ∈ DBFund.add (DBFund.add [⟨"A", "a", "2024-01-01", 1, 1, 0⟩]
          [⟨"A", "a", "2024-01-02", 1, 1, 0⟩])
          [⟨"A", "a", "2024-01-02", 2, 2, 0⟩, ⟨"A", "a", "2024-01-03", 1, 1, 0⟩]) ∧
      (∀ r ∈ [⟨"A", "a", "2024-01-02", 1, 1, 0⟩],
        rowKey r ∉ ([⟨"A", "a", "2024-01-01", 1, 1, 0⟩] : List NavRow).map rowKey →
        r ∈ DBFund.add (DBFund.add [⟨"A", "a", "2024-01-01", 1, 1, 0⟩]
          [⟨"A", "a", "2024-01-02", 1, 1, 0⟩])
          [⟨"A", "a", "2024-01-02", 2, 2, 0⟩, ⟨"A", "a", "2024-01-03", 1, 1, 0⟩]) ∧
      (∀ r ∈ [⟨"A", "a", "2024-01-02", 2, 2, 0⟩, ⟨"A", "a", "2024-01-03", 1, 1, 0⟩],
        rowKey r ∉ ([⟨"A", "a", "2024-01-01", 1, 1, 0⟩] : List NavRow).map rowKey →
        rowKey r ∉ ([⟨"A", "a", "2024-01-02", 1, 1, 0⟩] : List NavRow).map rowKey →
        r ∈ DBFund.add (DBFund.add [⟨"A", "a", "2024-01-01", 1, 1, 0⟩]
          [⟨"A", "a", "2024-01-02", 1, 1, 0⟩])
          [⟨"A", "a", "2024-01-02", 2, 2, 0⟩, ⟨"A", "a", "2024-01-03", 1, 1, 0⟩]) ∧
      (∀ r ∈ DBFund.add (DBFund.add [⟨"A", "a", "2024-01-01", 1, 1, 0⟩]
          [⟨"A", "a", "2024-01-02", 1, 1, 0⟩])
          [⟨"A", "a", "2024-01-02", 2, 2, 0⟩, ⟨"A", "a", "2024-01-03", 1, 1, 0⟩],
        r ∈ [⟨"A", "a", "2024-01-01", 1, 1, 0⟩] ∨
        r ∈ [⟨"A", "a", "2024-01-02", 1, 1, 0⟩] ∨
        r ∈ [⟨"A", "a", "2024-01-02", 2, 2, 0⟩, ⟨"A", "a", "2024-01-03", 1, 1, 0⟩])) :=
  ⟨⟨by decide, by decide, by decide⟩,
    merge_dedup_amended _ _ _ (by decide) (by decide) (by decide)⟩

/-- C9: the merge filters an incoming batch only against the store's
existing keys — (a) when the store is key-unique and a batch is internally
key-unique the merged store stays key-unique, and (b) a batch holding the
same unseen key twice gets both its rows appended verbatim, so merge
preserves key-uniqueness only under that per-batch precondition. -/
theorem merge_no_intra_batch_dedup (pdata batch : List NavRow) (r : NavRow)
    (hp : (pdata.map rowKey).Nodup) :
    ((batch.map rowKey).Nodup → ((DBFund.add pdata batch).map rowKey).Nodup) ∧
    (rowKey r ∉ pdata.map rowKey → DBFund.add pdata [r, r] = pdata ++ [r, r]) := by
  constructor
  · intro hb
    exact add_nodup_keys pdata batch hp hb
  · intro hk
    rw [add_eq]
    congr 1
    apply List.filter_eq_self.mpr
    intro a ha
    rcases List.mem_cons.mp ha with rfl | ha2
    · simp [hk]
    · rcases List.mem_cons.mp ha2 with rfl | h3
      · simp [hk]
      · exact absurd h3 (List.not_mem_nil a)

/-- C9 witness: a store with one row and a batch repeating one fresh key. -/
theorem merge_no_intra_batch_dedup_witness :
    (([⟨"A", "a", "2024-01-01", 1, 1, 0⟩] : List NavRow).map rowKey).Nodup ∧
    (((([⟨"A", "a", "2024-01-02", 1, 1, 0⟩] : List NavRow).map rowKey).Nodup →
        ((DBFund.add [⟨"A", "a", "2024-01-01", 1, 1, 0⟩]
          [⟨"A", "a", "2024-01-02", 1, 1, 0⟩]).map rowKey).Nodup) ∧
      (rowKey (⟨"A", "a", "2024-01-02", 1, 1, 0⟩ : NavRow)
          ∉ ([⟨"A", "a", "2024-01-01", 1, 1, 0⟩] : List NavRow).map rowKey →
        DBFund.add [⟨"A", "a", "2024-01-01", 1, 1, 0⟩]
            [⟨"A", "a", "2024-01-02", 1, 1, 0⟩, ⟨"A", "a", "2024-01-02", 1, 1, 0⟩]
          = [⟨"A", "a", "2024-01-01", 1, 1, 0⟩] ++
            [⟨"A", "a", "2024-01-02", 1, 1, 0⟩, ⟨"A", "a", "2024-01-02", 1, 1, 0⟩])) :=
  ⟨by decide,
    merge_no_intra_batch_dedup [⟨"A", "a", "2024-01-01", 1, 1, 0⟩]
      [⟨"A", "a", "2024-01-02", 1, 1, 0⟩] ⟨"A", "a", "2024-01-02", 1, 1, 0⟩ (by decide)⟩

/-- C3: with a missing sink, the flat-file back-end loads an empty store
(`isEmpty() = true`, no error), but the relational back-end raises — the
fresh sqlite database created by `connect()` has no `Return` table, so
`load()` fails instead of yielding an empty store. -/
theorem load_missing_sink :
    DBFund.load_local none = [] ∧
    DBFund.empty (DBFund.load_local none) = true ∧
    DBFund.load_db none = Except.error "no such table: Return" :=
  ⟨rfl, rfl, rfl⟩

lemma deriveReturns_length : ∀ (cum : List ℚ), (deriveReturns cum).length = cum.length := by
  intro cum
  induction cum with
  | nil => rfl
  | cons a t ih =>
    cases t with
    | nil => rfl
    | cons b u =>
      rw [deriveReturns]
      simp only [List.length_cons]
      rw [ih]
      simp

lemma deriveReturns_last :
    ∀ (cum : List ℚ), cum ≠ [] → (deriveReturns cum).getD (cum.length - 1) 0 = 0 := by
  intro cum
  induction cum with
  | nil => intro h; exact absurd rfl h
  | cons a t ih =>
    intro _
    cases t with
    | nil => rfl
    | cons b u =>
      rw [deriveReturns]
      have hlen : (a :: b :: u).length - 1 = (b :: u).length - 1 + 1 := by
        simp
      rw [hlen, List.getD_cons_succ]
      exact ih (List.cons_ne_nil b u)

lemma deriveReturns_formula :
    ∀ (cum : List ℚ) (i : ℕ), i + 1 < cum.length →
      (deriveReturns cum).getD i 0
        = (cum.getD i 0 - cum.getD (i + 1) 0) / cum.getD (i + 1) 0 := by
  intro cum
  induction cum with
  | nil =>
    intro i hi
    simp at hi
  | cons a t ih =>
    intro i hi
    cases t with
    | nil => simp at hi
    | cons b u =>
      rw [deriveReturns]
      cases i with
      | zero => rfl
      | succ j =>
        rw [List.getD_cons_succ, List.getD_cons_succ, List.getD_cons_succ]
        exact ih j (by simpa using hi)

/-- C4 counterexample: on a two-page fetch holding cumulative NAVs `[2]`
and `[1]` (consecutive days, newest first), the code derives `[0, 0]` —
one zero per page — while the claimed whole-batch rule derives `[1, 0]`
(the newer day's return should be `(2-1)/1` against the previous day, and
only the single oldest day should be zero). -/
theorem derive_whole_batch_counterexample :
    scrapeData [[2], [1]] = [0, 0] ∧ deriveReturns [2, 1] = [1, 0] ∧
    scrapeData [[2], [1]] ≠ deriveReturns [2, 1] := by
  have h1 : scrapeData [[2], [1]] = [0, 0] := rfl
  have h2 : deriveReturns [2, 1] = [1, 0] := by
    norm_num [deriveReturns]
  refine ⟨h1, h2, ?_⟩
  rw [h1, h2]
  intro h
  rw [List.cons.injEq] at h
  exact absurd h.1 (by norm_num)

/-- C4 (amended): the claimed derivation rule holds per fetched page, not
per batch — for one page of cumulative NAVs in descending day order, every
row but the page's last gets `(cumNav[i] - cumNav[i+1]) / cumNav[i+1]` and
exactly the page's last row (its oldest day) is assigned 0; a single-page
fetch therefore satisfies the claim as stated, while each further page
contributes one more zero row at its own boundary. -/
theorem derive_per_page (cum : List ℚ) (h : cum ≠ []) :
    scrapeData [cum] = deriveReturns cum ∧
    (deriveReturns cum).length = cum.length ∧
    (deriveReturns cum).getD (cum.length - 1) 0 = 0 ∧
    (∀ i, i + 1 < cum.length →
      (deriveReturns cum).getD i 0
        = (cum.getD i 0 - cum.getD (i + 1) 0) / cum.getD (i + 1) 0) := by
  refine ⟨?_, deriveReturns_length cum, deriveReturns_last cum h,
    fun i hi => deriveReturns_formula cum i hi⟩
  simp [scrapeData]

/-- C4 witness: the per-page rule evaluated on the page `[102, 100]`. -/
theorem derive_per_page_witness :
    (([102, 100] : List ℚ) ≠ []) ∧
    (scrapeData [[102, 100]] = deriveReturns [102, 100] ∧
      (deriveReturns [102, 100]).length = ([102, 100] : List ℚ).length ∧
      (deriveReturns [102, 100]).getD (([102, 100] : List ℚ).length - 1) 0 = 0 ∧
      (∀ i, i + 1 < ([102, 100] : List ℚ).length →
        (deriveReturns [102, 100]).getD i 0
          = (([102, 100] : List ℚ).getD i 0 - ([102, 100] : List ℚ).getD (i + 1) 0) /
            ([102, 100] : List ℚ).getD (i + 1) 0)) :=
  ⟨by simp, derive_per_page [102, 100] (by simp)⟩

lemma annualRow_yearReturn (pdata : List NavRow) (c : String) :
    (annualRow pdata c).yearReturn
      = if ageDays pdata c = 0 then none
        else some ((annualRow pdata c).totalReturn / (ageDays pdata c : ℚ) * YEAR_TNR) := rfl

lemma annualRow_totalSharpe (pdata : List NavRow) (c : String) :
    (annualRow pdata c).totalSharpe
      = match (annualRow pdata c).yearReturn with
        | none => none
        | some yr =>
          if popVar ((fundCut pdata c).map (fun r => r.ret)) = 0 then none
          else some (((yr : ℝ) - (RATE_R_F : ℝ)) /
            (Real.sqrt (popVar ((fundCut pdata c).map (fun r => r.ret))) *
              Real.sqrt (BDAY_TNR : ℝ))) := rfl

/-- C5: in both reports, a `(fund, period)` bucket whose trading days are
distinct compounds `1 + dailyReturn` over every row except the single
chronologically earliest one, and a one-row bucket deterministically
yields `periodReturn = 0`. -/
theorem bucket_compounding (pdata : List NavRow) (c y m : String)
    (hmne : monthBucket pdata c y m ≠ [])
    (hmnd : ((monthBucket pdata c y m).map (fun r => r.tradingDay)).Nodup)
    (hyne : yearBucket pdata c y ≠ [])
    (hynd : ((yearBucket pdata c y).map (fun r => r.tradingDay)).Nodup) :
    (∃ e ∈ monthBucket pdata c y m,
      (∀ x ∈ monthBucket pdata c y m, strLE e.tradingDay x.tradingDay) ∧
      (monthlyRow pdata (c, y, m)).ret
        = (((monthBucket pdata c y m).erase e).map (fun r => r.ret + 1)).prod - 1) ∧
    ((monthBucket pdata c y m).length = 1 → (monthlyRow pdata (c, y, m)).ret = 0) ∧
    (∃ e ∈ yearBucket pdata c y,
      (∀ x ∈ yearBucket pdata c y, strLE e.tradingDay x.tradingDay) ∧
      (yearStats (fundCut pdata c) y).ret
        = (((yearBucket pdata c y).erase e).map (fun r => r.ret + 1)).prod - 1) ∧
    ((y, yearStats (fundCut pdata c) y) ∈ (annualRow pdata c).years) ∧
    ((yearBucket pdata c y).length = 1 → (yearStats (fundCut pdata c) y).ret = 0) := by
  have hmret : (monthlyRow pdata (c, y, m)).ret
      = (((monthCut pdata c y m).map (fun r => r.ret)).dropLast.map
          (fun x => x + 1)).prod - 1 := rfl
  have hyret : (yearStats (fundCut pdata c) y).ret
      = ((((fundCut pdata c).filter (fun r => yearOf r == y)).map
          (fun r => r.ret)).dropLast.map (fun x => x + 1)).prod - 1 := rfl
  refine ⟨?_, ?_, ?_, ?_, ?_⟩
  · obtain ⟨e, he, hbound, hprod⟩ :=
      compound_excl_earliest (monthCut pdata c y m) (monthBucket pdata c y m)
        (monthCut_perm pdata c y m) (sortDesc_sorted _) hmnd hmne
    exact ⟨e, he, hbound, by rw [hmret, hprod]⟩
  · intro hlen
    rw [hmret]
    exact ret_zero_of_singleton _ ((monthCut_perm pdata c y m).length_eq.trans hlen)
  · obtain ⟨e, he, hbound, hprod⟩ :=
      compound_excl_earliest ((fundCut pdata c).filter (fun r => yearOf r == y))
        (yearBucket pdata c y) (yut_perm pdata c y) (yut_sorted pdata c y) hynd hyne
    exact ⟨e, he, hbound, by rw [hyret, hprod]⟩
  · obtain ⟨r, hr⟩ := List.exists_mem_of_ne_nil _ hyne
    have hr2 := List.mem_filter.mp hr
    have hcc : r.code = c ∧ yearOf r = y := by
      have := hr2.2
      simp only [Bool.and_eq_true, beq_iff_eq] at this
      exact this
    have hrc : r ∈ fundCut pdata c :=
      (fundCut_perm pdata c).mem_iff.mpr
        (List.mem_filter.mpr ⟨hr2.1, by simp [hcc.1]⟩)
    have hyy : y ∈ (fundCut pdata c).map yearOf :=
      hcc.2 ▸ List.mem_map_of_mem yearOf hrc
    have hyu : y ∈ uniques ((fundCut pdata c).map yearOf) :=
      (mem_uniques _ _).mpr hyy
    have hyears : (annualRow pdata c).years
        = (uniques ((fundCut pdata c).map yearOf)).map
            (fun yy => (yy, yearStats (fundCut pdata c) yy)) := rfl
    rw [hyears]
    exact List.mem_map_of_mem _ hyu
  · intro hlen
    rw [hyret]
    exact ret_zero_of_singleton _ ((yut_perm pdata c y).length_eq.trans hlen)

/-- C5 witness: the bucket rule evaluated on the concrete two-row store
(also exhibiting the one-row January-1-only year-2023 bucket case is not
needed: the sample's own buckets have two rows, and the single-row clause
holds vacuously via its implication). -/
theorem bucket_compounding_witness :
    (monthBucket sampleStore "A" "2024" "01" ≠ [] ∧
     ((monthBucket sampleStore "A" "2024" "01").map (fun r => r.tradingDay)).Nodup ∧
     yearBucket sampleStore "A" "2024" ≠ [] ∧
     ((yearBucket sampleStore "A" "2024").map (fun r => r.tradingDay)).Nodup) ∧
    ((∃ e ∈ monthBucket sampleStore "A" "2024" "01",
      (∀ x ∈ monthBucket sampleStore "A" "2024" "01", strLE e.tradingDay x.tradingDay) ∧
      (monthlyRow sampleStore ("A", "2024", "01")).ret
        = (((monthBucket sampleStore "A" "2024" "01").erase e).map
            (fun r => r.ret + 1)).prod - 1) ∧
    ((monthBucket sampleStore "A" "2024" "01").length = 1 →
      (monthlyRow sampleStore ("A", "2024", "01")).ret = 0) ∧
    (∃ e ∈ yearBucket sampleStore "A" "2024",
      (∀ x ∈ yearBucket sampleStore "A" "2024", strLE e.tradingDay x.tradingDay) ∧
      (yearStats (fundCut sampleStore "A") "2024").ret
        = (((yearBucket sampleStore "A" "2024").erase e).map
            (fun r => r.ret + 1)).prod - 1) ∧
    ((("2024" : String), yearStats (fundCut sampleStore "A") "2024")
        ∈ (annualRow sampleStore "A").years) ∧
    ((yearBucket sampleStore "A" "2024").length = 1 →
      (yearStats (fundCut sampleStore "A") "2024").ret = 0)) :=
  ⟨⟨by decide, by decide, by decide, by decide⟩,
    bucket_compounding sampleStore "A" "2024" "01"
      (by decide) (by decide) (by decide) (by decide)⟩

/-- C6: for every fund in the annual report, `TotalReturn` compounds
`1 + dailyReturn` over the fund's whole series with no row excluded, the
age denominator is the calendar-day difference between the fund's last
(maximal) and first (minimal) trading day, and — whenever that age is
nonzero, so the float quotient is finite — `YearReturn` is exactly
`TotalReturn / ageDays * 365`, a simple linear annualization. -/
theorem annualization (pdata : List NavRow) (c : String)
    (hne : fundRows pdata c ≠ []) :
    (annualRow pdata c).totalReturn
      = ((fundRows pdata c).map (fun r => r.ret + 1)).prod - 1 ∧
    (∃ dmax ∈ (fundRows pdata c).map (fun r => r.tradingDay),
      ∃ dmin ∈ (fundRows pdata c).map (fun r => r.tradingDay),
        (∀ d ∈ (fundRows pdata c).map (fun r => r.tradingDay), strLE d dmax) ∧
        (∀ d ∈ (fundRows pdata c).map (fun r => r.tradingDay), strLE dmin d) ∧
        ageDays pdata c = dateValue dmax - dateValue dmin) ∧
    (ageDays pdata c ≠ 0 →
      (annualRow pdata c).yearReturn
        = some ((annualRow pdata c).totalReturn / ((ageDays pdata c : ℤ) : ℚ) * 365)) := by
  have hcne : fundCut pdata c ≠ [] := by
    intro hnil
    have hp := fundCut_perm pdata c
    rw [hnil] at hp
    exact hne hp.nil_eq.symm
  have hheadmem : (fundCut pdata c).headD default ∈ fundCut pdata c := by
    rw [headD_eq_head _ hcne]
    exact List.head_mem hcne
  refine ⟨?_, ?_, ?_⟩
  · have h0 : (annualRow pdata c).totalReturn
        = (((fundCut pdata c).map (fun r => r.ret)).map (fun x => x + 1)).prod - 1 := rfl
    rw [h0, List.map_map]
    have hpr := ((fundCut_perm pdata c).map (fun r => r.ret + 1)).prod_eq
    exact congrArg (fun z => z - 1) hpr
  · refine ⟨((fundCut pdata c).headD default).tradingDay, ?_,
      ((fundCut pdata c).getLast hcne).tradingDay, ?_, ?_, ?_, ?_⟩
    · exact List.mem_map_of_mem (fun r => r.tradingDay)
        ((fundCut_perm pdata c).mem_iff.mp hheadmem)
    · exact List.mem_map_of_mem (fun r => r.tradingDay)
        ((fundCut_perm pdata c).mem_iff.mp (List.getLast_mem hcne))
    · intro d hd
      rcases List.mem_map.mp hd with ⟨x, hx, rfl⟩
      exact sorted_le_head _ (sortDesc_sorted _) hcne x
        ((fundCut_perm pdata c).mem_iff.mpr hx)
    · intro d hd
      rcases List.mem_map.mp hd with ⟨x, hx, rfl⟩
      exact sorted_getLast_le _ (sortDesc_sorted _) hcne x
        ((fundCut_perm pdata c).mem_iff.mpr hx)
    · show dateValue (((fundCut pdata c).headD default).tradingDay) -
          dateValue (((fundCut pdata c).getLastD default).tradingDay) = _
      rw [getLastD_eq_getLast _ hcne]
  · intro hage
    rw [annualRow_yearReturn, if_neg hage]
    norm_num [YEAR_TNR]

/-- C6 witness: the annualization theorem on the concrete two-day store. -/
theorem annualization_witness :
    (fundRows sampleStore "A" ≠ [] ∧ ageDays sampleStore "A" = 1) ∧
    ((annualRow sampleStore "A").totalReturn
        = ((fundRows sampleStore "A").map (fun r => r.ret + 1)).prod - 1 ∧
    (∃ dmax ∈ (fundRows sampleStore "A").map (fun r => r.tradingDay),
      ∃ dmin ∈ (fundRows sampleStore "A").map (fun r => r.tradingDay),
        (∀ d ∈ (fundRows sampleStore "A").map (fun r => r.tradingDay), strLE d dmax) ∧
        (∀ d ∈ (fundRows sampleStore "A").map (fun r => r.tradingDay), strLE dmin d) ∧
        ageDays sampleStore "A" = dateValue dmax - dateValue dmin) ∧
    (ageDays sampleStore "A" ≠ 0 →
      (annualRow sampleStore "A").yearReturn
        = some ((annualRow sampleStore "A").totalReturn /
            ((ageDays sampleStore "A" : ℤ) : ℚ) * 365))) :=
  ⟨⟨by decide, by decide⟩, annualization sampleStore "A" (by decide)⟩

/-- C7: for a fund with nonzero return variance and nonzero age, the
whole-history `TotalShapre` equals the annualized return's excess over the
risk-free rate `0.025`, divided by the population standard deviation of
the fund's full daily-return series times `sqrt 252`. -/
theorem sharpe_formula (pdata : List NavRow) (c : String)
    (hv : popVar ((fundRows pdata c).map (fun r => r.ret)) ≠ 0)
    (hage : ageDays pdata c ≠ 0) :
    ∃ yr : ℚ, (annualRow pdata c).yearReturn = some yr ∧
      (annualRow pdata c).totalSharpe
        = some (((yr : ℝ) - 25 / 1000) /
            (Real.sqrt (popVar ((fundRows pdata c).map (fun r => r.ret))) *
              Real.sqrt 252)) := by
  have hvar : popVar ((fundCut pdata c).map (fun r => r.ret))
      = popVar ((fundRows pdata c).map (fun r => r.ret)) :=
    popVar_perm ((fundCut_perm pdata c).map _)
  refine ⟨(annualRow pdata c).totalReturn / ((ageDays pdata c : ℤ) : ℚ) * YEAR_TNR, ?_, ?_⟩
  · rw [annualRow_yearReturn, if_neg hage]
  · rw [annualRow_totalSharpe, annualRow_yearReturn, if_neg hage]
    show (if popVar ((fundCut pdata c).map (fun r => r.ret)) = 0 then none
      else some _) = _
    rw [hvar, if_neg hv]
    congr 1
    rw [RATE_R_F, BDAY_TNR]
    norm_num

/-- C7 witness: the Sharpe formula on the concrete two-day store, whose
return series `[1/50, 0]` has population variance `1/10000 ≠ 0`. -/
theorem sharpe_formula_witness :
    (popVar ((fundRows sampleStore "A").map (fun r => r.ret)) ≠ 0 ∧
     ageDays sampleStore "A" ≠ 0) ∧
    (∃ yr : ℚ, (annualRow sampleStore "A").yearReturn = some yr ∧
      (annualRow sampleStore "A").totalSharpe
        = some (((yr : ℝ) - 25 / 1000) /
            (Real.sqrt (popVar ((fundRows sampleStore "A").map (fun r => r.ret))) *
              Real.sqrt 252))) :=
  ⟨⟨by
      have h : (fundRows sampleStore "A").map (fun r => r.ret) = [1/50, 0] := rfl
      rw [h]
      norm_num [popVar, listMean],
    by decide⟩,
    sharpe_formula sampleStore "A"
      (by
        have h : (fundRows sampleStore "A").map (fun r => r.ret) = [1/50, 0] := rfl
        rw [h]
        norm_num [popVar, listMean])
      (by decide)⟩

/-- C8: the whole-history `TotalMaxDrawDown` of every fund equals the
minimum cumulative NAV over the fund's full series minus 1 — the stored
value plus 1 is a member of the fund's `CumNAV` column and a lower bound
for it — and not any running peak-to-trough quantity. -/
theorem maxdrawdown_characterization (pdata : List NavRow) (c : String)
    (hne : fundRows pdata c ≠ []) :
    (annualRow pdata c).totalMaxDrawDown
        = minQ ((fundRows pdata c).map (fun r => r.cumNav)) - 1 ∧
    (annualRow pdata c).totalMaxDrawDown + 1 ∈ (fundRows pdata c).map (fun r => r.cumNav) ∧
    ∀ x ∈ (fundRows pdata c).map (fun r => r.cumNav),
      (annualRow pdata c).totalMaxDrawDown + 1 ≤ x := by
  have h0 : (annualRow pdata c).totalMaxDrawDown
      = minQ ((fundCut pdata c).map (fun r => r.cumNav)) - 1 := rfl
  have hmin := minQ_perm ((fundCut_perm pdata c).map (fun r => r.cumNav))
  have hmapne : (fundRows pdata c).map (fun r => r.cumNav) ≠ [] := by
    intro hnil
    exact hne (List.map_eq_nil_iff.mp hnil)
  have hcancel : minQ ((fundRows pdata c).map (fun r => r.cumNav)) - 1 + 1
      = minQ ((fundRows pdata c).map (fun r => r.cumNav)) := by ring
  refine ⟨by rw [h0, hmin], ?_, ?_⟩
  · rw [h0, hmin, hcancel]
    exact minQ_mem _ hmapne
  · intro x hx
    rw [h0, hmin, hcancel]
    exact minQ_le _ x hx

/-- C8 witness: on the spec's example series of cumulative NAVs
`[1.0, 0.95, 1.02, 0.90]` the reported drawdown is `0.90 - 1 = -0.10`. -/
theorem maxdrawdown_characterization_witness :
    (fundRows drawdownStore "A" ≠ []) ∧
    ((annualRow drawdownStore "A").totalMaxDrawDown
        = minQ ((fundRows drawdownStore "A").map (fun r => r.cumNav)) - 1 ∧
    (annualRow drawdownStore "A").totalMaxDrawDown + 1
        ∈ (fundRows drawdownStore "A").map (fun r => r.cumNav) ∧
    ∀ x ∈ (fundRows drawdownStore "A").map (fun r => r.cumNav),
      (annualRow drawdownStore "A").totalMaxDrawDown + 1 ≤ x) ∧
    (annualRow drawdownStore "A").totalMaxDrawDown = -(1/10) :=
  ⟨by decide, maxdrawdown_characterization drawdownStore "A" (by decide),
    by
      have h := (maxdrawdown_characterization drawdownStore "A" (by decide)).1
      have h2 : (fundRows drawdownStore "A").map (fun r => r.cumNav)
          = [1, 95/100, 102/100, 90/100] := rfl
      rw [h, h2]
      rw [minQ, minQ, minQ, minQ]
      rw [min_def, min_def, min_def]
      norm_num⟩

/-- C10: for a fund whose rows all carry one single trading day (for
example exactly one record), the age denominator `cnt` is 0 and the
unguarded float division makes `YearReturn` — and with it `TotalShapre` —
non-finite (`none` in this embedding) instead of a defined number. -/
theorem unguarded_age_division (pdata : List NavRow) (c : String) (d : String)
    (hne : fundRows pdata c ≠ [])
    (hall : ∀ r ∈ fundRows pdata c, r.tradingDay = d) :
    ageDays pdata c = 0 ∧ (annualRow pdata c).yearReturn = none ∧
    (annualRow pdata c).totalSharpe = none := by
  have hcne : fundCut pdata c ≠ [] := by
    intro hnil
    have hp := fundCut_perm pdata c
    rw [hnil] at hp
    exact hne hp.nil_eq.symm
  have h1 : ((fundCut pdata c).headD default).tradingDay = d := by
    apply hall
    apply (fundCut_perm pdata c).mem_iff.mp
    rw [headD_eq_head _ hcne]
    exact List.head_mem hcne
  have h2 : ((fundCut pdata c).getLastD default).tradingDay = d := by
    apply hall
    apply (fundCut_perm pdata c).mem_iff.mp
    rw [getLastD_eq_getLast _ hcne]
    exact List.getLast_mem hcne
  have hage : ageDays pdata c = 0 := by
    show dateValue (((fundCut pdata c).headD default).tradingDay) -
        dateValue (((fundCut pdata c).getLastD default).tradingDay) = 0
    rw [h1, h2, sub_self]
  refine ⟨hage, ?_, ?_⟩
  · rw [annualRow_yearReturn, if_pos hage]
  · rw [annualRow_totalSharpe, annualRow_yearReturn, if_pos hage]

/-- C10 witness: a store holding exactly one record of fund `A`. -/
theorem unguarded_age_division_witness :
    (fundRows singleDayStore "A" ≠ [] ∧
     (∀ r ∈ fundRows singleDayStore "A", r.tradingDay = "2024-01-01")) ∧
    (ageDays singleDayStore "A" = 0 ∧
     (annualRow singleDayStore "A").yearReturn = none ∧
     (annualRow singleDayStore "A").totalSharpe = none) :=
  ⟨⟨by decide, by decide⟩,
    unguarded_age_division singleDayStore "A" "2024-01-01" (by decide) (by decide)⟩
